import Mathlib

/-!
Verification development for the SubSmart billing-date recurrence engine
(src/src/utils.ts and the upcoming-subscription aggregation in the app root
component).

Dates: the source manipulates JavaScript Date values through a small set of
date-fns operations (addWeeks, addMonths, addYears, isBefore,
differenceInCalendarDays, endOfMonth, isSameMonth) plus the native setters
setFullYear / setMonth.  All dates involved are local calendar dates: the
billing dates are parsed at midnight and the only non-midnight values are
the end-of-month sentinels produced by endOfMonth (23:59:59.999 of the last
day).  We embed a Date as a calendar date (year, month 1..12, day) together
with an end-of-day flag standing for that one relevant time-of-day
distinction; comparisons go through an order-preserving integer key.
new Date() (the current instant) is abstracted to the reference calendar
day, which is observationally equal for every use in the source (all
consumers look only at the calendar day).
-/

namespace SubSmart

/-- Embedded JavaScript Date: a calendar date plus an end-of-day flag
(endOfMonth produces 23:59:59.999 values; everything else is midnight). -/
structure CalDate where
  year : Int
  month : Int
  day : Int
  eod : Bool
deriving DecidableEq, Repr

instance : Inhabited CalDate := ⟨CalDate.mk 1970 1 1 false⟩

/-- Gregorian leap-year test, as used by JavaScript Date arithmetic. -/
def isLeap (y : Int) : Bool :=
  decide ((Int.emod y 4 = 0 ∧ ¬ Int.emod y 100 = 0) ∨ Int.emod y 400 = 0)

/-- Number of days in a month of a given year (month is 1-based). -/
def daysInMonth (y m : Int) : Int :=
  if m = 2 then (if isLeap y then 29 else 28)
  else if m = 4 ∨ m = 6 ∨ m = 9 ∨ m = 11 then 30
  else 31

/-- Order-preserving integer key for dates: lexicographic in
(year, month, day, eod).  Coefficients are large enough for the ranges
month ∈ [1,12], day ∈ [1,31]. -/
def key (d : CalDate) : Int :=
  ((d.year * 16 + d.month) * 32 + d.day) * 2 + (if d.eod then 1 else 0)

/-- date-fns isBefore: strict comparison of the underlying instants. -/
def isBefore (a b : CalDate) : Bool :=
  decide (key a < key b)

/-- date-fns isSameMonth: same year and same month. -/
def isSameMonth (a b : CalDate) : Bool :=
  decide (a.year = b.year ∧ a.month = b.month)

/-- date-fns endOfMonth: last day of the month, at end of day. -/
def endOfMonth (d : CalDate) : CalDate :=
  CalDate.mk d.year d.month (daysInMonth d.year d.month) true

/-- Successor calendar day (keeps the time-of-day flag). -/
def nextDay (d : CalDate) : CalDate :=
  if d.day < daysInMonth d.year d.month then CalDate.mk d.year d.month (d.day + 1) d.eod
  else if d.month < 12 then CalDate.mk d.year (d.month + 1) 1 d.eod
  else CalDate.mk (d.year + 1) 1 1 d.eod

/-- Add a number of calendar days. -/
def addDays : Nat → CalDate → CalDate
  | 0, d => d
  | n + 1, d => addDays n (nextDay d)

/-- date-fns addWeeks with count 1: seven calendar days later. -/
def addWeeks (d : CalDate) : CalDate :=
  addDays 7 d

/-- date-fns addMonths with count 1: next calendar month, day clamped to the
length of the target month. -/
def addMonths (d : CalDate) : CalDate :=
  let y2 : Int := if d.month < 12 then d.year else d.year + 1
  let m2 : Int := if d.month < 12 then d.month + 1 else 1
  CalDate.mk y2 m2 (min d.day (daysInMonth y2 m2)) d.eod

/-- date-fns addYears with count 1: next year, day clamped (Feb 29 to Feb 28
in a non-leap target year). -/
def addYears (d : CalDate) : CalDate :=
  CalDate.mk (d.year + 1) d.month (min d.day (daysInMonth (d.year + 1) d.month)) d.eod

/-- JavaScript new Date(year, month0, day) normalization: month0 is 0-based
and may be out of range (normalized into the year), and the day is
normalized by counting forward from day 1 of the resolved month.  Used here
with 1-based month input m, day in [1,31]. -/
def jsMkDate (y m day : Int) (eodFlag : Bool) : CalDate :=
  addDays (Int.toNat (day - 1)) (CalDate.mk y m 1 eodFlag)

/-- JavaScript Date.prototype.setFullYear: replaces the year keeping the
month and day counters; an out-of-range day (Feb 29 in a non-leap year)
overflows into the following month. -/
def jsSetFullYear (y : Int) (d : CalDate) : CalDate :=
  jsMkDate y d.month d.day d.eod

/-- JavaScript Date.prototype.setMonth with a 0-based month argument that
may be negative (rolls into the previous year); an out-of-range day
overflows into the following month. -/
def jsSetMonth (n : Int) (d : CalDate) : CalDate :=
  jsMkDate (d.year + Int.ediv n 12) (Int.emod n 12 + 1) d.day d.eod

/-- Rata-die style day number of a calendar date (days-from-civil
algorithm); time of day is ignored, matching differenceInCalendarDays. -/
def rataDie (d : CalDate) : Int :=
  let y := d.year - (if d.month ≤ 2 then 1 else 0)
  let era := Int.ediv y 400
  let yoe := y - era * 400
  let mp := Int.emod (d.month + 9) 12
  let doy := Int.ediv (153 * mp + 2) 5 + d.day - 1
  let doe := yoe * 365 + Int.ediv yoe 4 - Int.ediv yoe 100 + doy
  era * 146097 + doe

/-- The Subscription record from src/types.ts (its content is staged into
src/src/services/geminiService.ts).  billingCycle is the BillingCycle
string enum declared there, whose runtime values are the Chinese labels
MONTHLY = 每月, YEARLY = 每年, WEEKLY = 每週; we represent the field by its
runtime string — exactly what the source compares with === — so that
out-of-enumeration values remain expressible, as they are in TypeScript at
runtime.  firstBillDate is an ISO calendar-date string; we abstract the
string to the calendar date it denotes, with absence (empty/undefined,
falsy in the source guards) as none.  category is likewise a string enum
(display only).  price is a number in the source, abstracted here to an
integer amount (no claim depends on fractional prices).  Optional fields
with no effect on recurrence (description, websiteUrl) are omitted. -/
structure Subscription where
  id : String
  name : String
  price : Int
  currency : String
  billingCycle : String
  firstBillDate : Option CalDate
  category : String
  active : Bool
deriving DecidableEq, Repr

/-- One advancement step of getNextBillingDate, selected by the
billingCycle if/else-if chain; an unrecognized cycle advances nothing. -/
def billingStep (cycle : String) (d : CalDate) : CalDate :=
  if cycle = "每月" then addMonths d
  else if cycle = "每年" then addYears d
  else if cycle = "每週" then addWeeks d
  else d

/-- Iterated advancement: the candidate after k whole-cycle steps. -/
def stepIter (cycle : String) : Nat → CalDate → CalDate
  | 0, d => d
  | k + 1, d => stepIter cycle k (billingStep cycle d)

/-- The while loop of getNextBillingDate: advance while the candidate is
strictly before today and fuel remains (fuel starts at 1000, so remaining
fuel 0 at exit means 1000 iterations were performed).  Returns the final
candidate and the remaining fuel. -/
def billingLoop (cycle : String) (today : CalDate) : Nat → CalDate → CalDate × Nat
  | 0, d => (d, 0)
  | fuel + 1, d =>
    if isBefore d today then billingLoop cycle today fuel (billingStep cycle d)
    else (d, fuel + 1)

/-- getNextBillingDate from src/src/utils.ts.  The clock (startOfToday) is
passed explicitly as the reference calendar day; the fallback new Date()
for a missing firstBillDate is abstracted to the same calendar day. -/
def getNextBillingDate (today : CalDate) (sub : Subscription) : CalDate :=
  match sub.firstBillDate with
  | none => today
  | some start =>
    let r := billingLoop sub.billingCycle today 1000 start
    if r.2 = 0 then today else r.1

/-- getDaysRemaining from src/src/utils.ts:
differenceInCalendarDays(date, startOfToday()). -/
def getDaysRemaining (today date : CalDate) : Int :=
  rataDie date - rataDie today

/-- The dueText selection inside generateReminderMessage. -/
def dueTextOf (daysLeft : Int) : String :=
  if daysLeft = 0 then "今天"
  else if daysLeft < 0 then "已過期"
  else toString daysLeft ++ " 天後"

/-- toLocaleDateString with the zh-TW locale: year/month/day without
zero padding. -/
def localeDateString (d : CalDate) : String :=
  toString d.year ++ "/" ++ toString d.month ++ "/" ++ toString d.day

/-- generateReminderMessage from src/src/utils.ts (the nextDate truthiness
test in the source is always true, so the dateStr branch is unconditional). -/
def generateReminderMessage (today : CalDate) (sub : Subscription) (daysLeft : Int) : String :=
  let nextDate := getNextBillingDate today sub
  let dateStr := localeDateString nextDate
  "【SubSmart 續訂提醒】\n您的訂閱服務「" ++ sub.name ++ "」即將在 " ++ dueTextOf daysLeft ++
    " (" ++ dateStr ++ ") 扣款。\n金額：" ++ sub.currency ++ " " ++ toString sub.price ++
    "\n請確認是否需要續訂或取消。"

/-- The MONTHLY while loop of getBillDatesInMonth (iteration cap 24). -/
def monthlyLoop (start monthEnd currentMonth : CalDate) : Nat → CalDate → List CalDate
  | 0, _ => []
  | fuel + 1, date =>
    if isBefore date (addMonths monthEnd) then
      if isSameMonth date currentMonth && !isBefore date start then
        date :: monthlyLoop start monthEnd currentMonth fuel (addMonths date)
      else monthlyLoop start monthEnd currentMonth fuel (addMonths date)
    else []

/-- The YEARLY while loop of getBillDatesInMonth.  The source loop is
unbounded; it terminates because each step raises the year by one while the
bound addYears(monthEnd, 1) is fixed.  The fuel passed by the caller
strictly exceeds the number of iterations the source loop performs, so the
fuel-free exit below is never the reason the recursion stops. -/
def yearlyLoop (start monthEnd currentMonth : CalDate) : Nat → CalDate → List CalDate
  | 0, _ => []
  | fuel + 1, date =>
    if isBefore date (addYears monthEnd) then
      if isSameMonth date currentMonth && !isBefore date start then
        date :: yearlyLoop start monthEnd currentMonth fuel (addYears date)
      else yearlyLoop start monthEnd currentMonth fuel (addYears date)
    else []

/-- The WEEKLY fast-forward loop: add whole years while more than one year
below the query year.  The source loop is unbounded; each step raises the
year by one, and the caller passes exactly the number of steps the source
performs. -/
def ffLoop (targetYear : Int) : Nat → CalDate → CalDate
  | 0, d => d
  | fuel + 1, d =>
    if d.year < targetYear - 1 then ffLoop targetYear fuel (addYears d) else d

/-- The WEEKLY while loop of getBillDatesInMonth (iteration cap 10000). -/
def weeklyLoop (start monthEnd currentMonth : CalDate) : Nat → CalDate → List CalDate
  | 0, _ => []
  | fuel + 1, date =>
    if isBefore date (addWeeks monthEnd) then
      if isSameMonth date currentMonth && !isBefore date start then
        date :: weeklyLoop start monthEnd currentMonth fuel (addWeeks date)
      else weeklyLoop start monthEnd currentMonth fuel (addWeeks date)
    else []

/-- getBillDatesInMonth from src/src/utils.ts.  currentMonth.getMonth() is
0-based in JavaScript, so the source setMonth(getMonth() - 1) argument is
month - 2 in our 1-based representation. -/
def getBillDatesInMonth (sub : Subscription) (currentMonth : CalDate) : List CalDate :=
  if !sub.active then []
  else
    match sub.firstBillDate with
    | none => []
    | some start =>
      let monthEnd := endOfMonth currentMonth
      if sub.billingCycle = "每月" then
        let d1 := if start.year < currentMonth.year then jsSetFullYear currentMonth.year start else start
        let d2 := jsSetMonth (currentMonth.month - 2) d1
        let d3 := if isBefore d2 start then start else d2
        monthlyLoop start monthEnd currentMonth 24 d3
      else if sub.billingCycle = "每年" then
        yearlyLoop start monthEnd currentMonth (Int.toNat (monthEnd.year + 2 - start.year)) start
      else if sub.billingCycle = "每週" then
        let d0 := ffLoop currentMonth.year (Int.toNat (currentMonth.year - 1 - start.year)) start
        weeklyLoop start monthEnd currentMonth 10000 d0
      else []

/-- A subscription together with its computed daysLeft, as produced by the
spread in the upcomingSubs pipeline. -/
structure WithDays where
  sub : Subscription
  daysLeft : Int
deriving DecidableEq, Repr

/-- Stable insertion into a list sorted ascending by an integer key: the
new element goes before the first element whose key is not smaller, so an
element earlier in the original list stays before later elements with an
equal key. -/
def insertK {α : Type} (κ : α → Int) (a : α) : List α → List α
  | [] => [a]
  | b :: l => if κ b < κ a then b :: insertK κ a l else a :: b :: l

/-- Stable ascending sort by an integer key; extensionally the ECMAScript
stable Array.prototype.sort with the comparator (a, b) => κ a - κ b. -/
def isortK {α : Type} (κ : α → Int) : List α → List α
  | [] => []
  | a :: l => insertK κ a (isortK κ l)

/-- The upcomingSubs pipeline from the root component, before sorting:
filter to active subscriptions, attach daysLeft, keep the 0..7 window. -/
def upcomingPre (today : CalDate) (subs : List Subscription) : List WithDays :=
  ((subs.filter (fun s => s.active)).map
      (fun s => WithDays.mk s (getDaysRemaining today (getNextBillingDate today s)))).filter
    (fun x => decide (0 ≤ x.daysLeft ∧ x.daysLeft ≤ 7))

/-- upcomingSubs from the root component: the windowed list sorted
ascending by daysLeft with the stable ECMAScript sort. -/
def upcomingSubs (today : CalDate) (subs : List Subscription) : List WithDays :=
  isortK (fun x => x.daysLeft) (upcomingPre today subs)

/-- Well-formed calendar date: month in 1..12 and day in 1..length of the
month.  Every date denoted by an ISO date string satisfies this, and every
date operation of the embedding preserves it. -/
def Valid (d : CalDate) : Prop :=
  1 ≤ d.month ∧ d.month ≤ 12 ∧ 1 ≤ d.day ∧ d.day ≤ daysInMonth d.year d.month

instance (d : CalDate) : Decidable (Valid d) := by
  unfold Valid; infer_instance

/-- Calendar month counter: strictly increasing along the addMonths walk. -/
def monthIdx (d : CalDate) : Int :=
  d.year * 12 + d.month

/-- A store of JavaScript Date objects, for the frame property: references
are indices, allocation appends, the setters mutate in place. -/
abbrev Store := List CalDate

/-- Dereference a Date object (out-of-range reads return a dummy value). -/
def readRef (σ : Store) (r : Nat) : CalDate :=
  σ.getD r default

/-- Allocate a fresh Date object (new Date(...)), returning its reference. -/
def allocRef (σ : Store) (v : CalDate) : Nat × Store :=
  (σ.length, σ ++ [v])

/-- In-place mutation of a Date object (setFullYear / setMonth). -/
def writeRef (σ : Store) (r : Nat) (v : CalDate) : Store :=
  σ.set r v

/-- getBillDatesInMonth with the Date heap made explicit: the anchor
(currentMonth) is a reference into the store, parseISO and every
new Date(...) allocate, dates from the date-fns combinators are fresh
values, and the two setter calls of the MONTHLY branch mutate exactly the
objects freshly allocated on the lines before them, mirroring the source
line by line.  The subscription record is passed by value: the source only
ever reads its fields. -/
def getBillDatesInMonthST (sub : Subscription) (anchor : Nat) (σ : Store) :
    List CalDate × Store :=
  if !sub.active then ([], σ)
  else
    match sub.firstBillDate with
    | none => ([], σ)
    | some sv =>
      let a1 := allocRef σ sv
      let σ1 := a1.2
      let cm := readRef σ1 anchor
      let a2 := allocRef σ1 (endOfMonth cm)
      let σ2 := a2.2
      if sub.billingCycle = "每月" then
        let p :=
          if (readRef σ2 a1.1).year < cm.year then
            let a3 := allocRef σ2 (readRef σ2 a1.1)
            let σ3 := writeRef a3.2 a3.1 (jsSetFullYear cm.year (readRef a3.2 a3.1))
            (a3.1, σ3)
          else (a1.1, σ2)
        let a4 := allocRef p.2 (readRef p.2 p.1)
        let σ5 := writeRef a4.2 a4.1 (jsSetMonth (cm.month - 2) (readRef a4.2 a4.1))
        let dd := readRef σ5 a4.1
        let sv2 := readRef σ5 a1.1
        let d3 := if isBefore dd sv2 then sv2 else dd
        (monthlyLoop sv2 (readRef σ5 a2.1) cm 24 d3, σ5)
      else if sub.billingCycle = "每年" then
        let st := readRef σ2 a1.1
        let me := readRef σ2 a2.1
        (yearlyLoop st me cm (Int.toNat (me.year + 2 - st.year)) st, σ2)
      else if sub.billingCycle = "每週" then
        let st := readRef σ2 a1.1
        let me := readRef σ2 a2.1
        let d0 := ffLoop cm.year (Int.toNat (cm.year - 1 - st.year)) st
        (weeklyLoop st me cm 10000 d0, σ2)
      else ([], σ2)


/-- Sample input: a monthly subscription first billed on 2024-01-31 (the
month-end clamping scenario of the spec). -/
def sampleMonthly31 : Subscription :=
  Subscription.mk "m31" "Netflix" 390 "TWD" "每月" (some (CalDate.mk 2024 1 31 false))
    "娛樂" true

/-- Sample input: a weekly subscription first billed on Monday 2023-01-02
(the weekly enumeration scenario of the spec). -/
def sampleWeekly : Subscription :=
  Subscription.mk "w" "Gym" 100 "TWD" "每週" (some (CalDate.mk 2023 1 2 false)) "其他" true

/-- Sample input: a yearly subscription whose start date lies more than
1000 years in the past, so the 1000-iteration cap of getNextBillingDate is
reached. -/
def sampleYearlyFar : Subscription :=
  Subscription.mk "y" "Archive" 10 "TWD" "每年" (some (CalDate.mk 900 1 2 false)) "其他" true

/-- Sample input: a subscription whose billingCycle lies outside the
WEEKLY / MONTHLY / YEARLY enumeration. -/
def sampleUnknownCycle : Subscription :=
  Subscription.mk "u" "Odd" 50 "TWD" "BIWEEKLY" (some (CalDate.mk 2020 1 1 false)) "其他" true

/-- Sample input: a subscription with no firstBillDate. -/
def sampleNoDate : Subscription :=
  Subscription.mk "n" "Blank" 5 "TWD" "每月" none "其他" true

/-- Sample input: an inactive subscription. -/
def sampleInactive : Subscription :=
  Subscription.mk "i" "Paused" 80 "TWD" "每月" (some (CalDate.mk 2024 5 1 false)) "其他" false

/-- Sample input: a monthly subscription whose next occurrence is exactly
the sample reference day 2026-01-05. -/
def sampleDueToday : Subscription :=
  Subscription.mk "d" "News" 120 "TWD" "每月" (some (CalDate.mk 2026 1 5 false)) "其他" true

theorem daysInMonth_bounds (y m : Int) : 1 ≤ daysInMonth y m ∧ daysInMonth y m ≤ 31 := by
  unfold daysInMonth
  split
  · split <;> omega
  · split <;> omega

theorem isBefore_eq_true {a b : CalDate} : isBefore a b = true ↔ key a < key b := by
  simp [isBefore]

theorem isBefore_eq_false {a b : CalDate} : isBefore a b = false ↔ ¬ key a < key b := by
  simp [isBefore]

theorem isSameMonth_eq_true {a b : CalDate} :
    isSameMonth a b = true ↔ a.year = b.year ∧ a.month = b.month := by
  simp [isSameMonth]

theorem nextDay_valid_lt {d : CalDate} (h : Valid d) :
    Valid (nextDay d) ∧ key d < key (nextDay d) := by
  obtain ⟨y, m, dd, e⟩ := d
  obtain ⟨h1, h2, h3, h4⟩ := h
  simp only [Valid, key, nextDay] at *
  have hb := daysInMonth_bounds y m
  split
  · simp_all; omega
  · have hb2 := daysInMonth_bounds y (m + 1)
    split
    · simp_all; omega
    · have hb3 := daysInMonth_bounds (y + 1) 1
      simp_all; omega

theorem addDays_valid_lt {d : CalDate} (h : Valid d) (n : Nat) :
    Valid (addDays n d) ∧ (0 < n → key d < key (addDays n d)) := by
  induction n generalizing d with
  | zero => exact ⟨h, by omega⟩
  | succ k ih =>
    obtain ⟨hv, hlt⟩ := nextDay_valid_lt h
    obtain ⟨hv2, hlt2⟩ := ih hv
    refine ⟨hv2, fun _ => ?_⟩
    rcases Nat.eq_zero_or_pos k with hk | hk
    · subst hk; exact hlt
    · exact lt_trans hlt (hlt2 hk)

theorem addWeeks_valid_lt {d : CalDate} (h : Valid d) :
    Valid (addWeeks d) ∧ key d < key (addWeeks d) := by
  obtain ⟨hv, hlt⟩ := addDays_valid_lt h 7
  exact ⟨hv, hlt (by omega)⟩

theorem addMonths_valid_lt {d : CalDate} (h : Valid d) :
    Valid (addMonths d) ∧ key d < key (addMonths d) := by
  obtain ⟨y, m, dd, e⟩ := d
  obtain ⟨h1, h2, h3, h4⟩ := h
  have hb := daysInMonth_bounds y m
  simp only [Valid, key, addMonths] at *
  split
  · have hb2 := daysInMonth_bounds y (m + 1)
    simp_all
    omega
  · have hb2 := daysInMonth_bounds (y + 1) 1
    simp_all
    omega

theorem addYears_valid_lt {d : CalDate} (h : Valid d) :
    Valid (addYears d) ∧ key d < key (addYears d) := by
  obtain ⟨y, m, dd, e⟩ := d
  obtain ⟨h1, h2, h3, h4⟩ := h
  have hb := daysInMonth_bounds y m
  have hb2 := daysInMonth_bounds (y + 1) m
  simp only [Valid, key, addYears] at *
  constructor
  · omega
  · omega

theorem billingStep_valid_lt {cycle : String} {d : CalDate}
    (hc : cycle = "每週" ∨ cycle = "每月" ∨ cycle = "每年") (h : Valid d) :
    Valid (billingStep cycle d) ∧ key d < key (billingStep cycle d) := by
  rcases hc with hc | hc | hc <;> subst hc <;> unfold billingStep
  · rw [if_neg (by decide), if_neg (by decide), if_pos rfl]
    exact addWeeks_valid_lt h
  · rw [if_pos rfl]
    exact addMonths_valid_lt h
  · rw [if_neg (by decide), if_pos rfl]
    exact addYears_valid_lt h

theorem stepIter_add (cycle : String) (a b : Nat) (d : CalDate) :
    stepIter cycle (a + b) d = stepIter cycle a (stepIter cycle b d) := by
  induction b generalizing d with
  | zero => rfl
  | succ k ih => rw [Nat.add_succ]; exact ih (billingStep cycle d)

theorem stepIter_valid {cycle : String} {d : CalDate}
    (hc : cycle = "每週" ∨ cycle = "每月" ∨ cycle = "每年") (h : Valid d) (k : Nat) :
    Valid (stepIter cycle k d) := by
  induction k generalizing d with
  | zero => exact h
  | succ n ih => exact ih (billingStep_valid_lt hc h).1

theorem key_le_stepIter {cycle : String} {d : CalDate}
    (hc : cycle = "每週" ∨ cycle = "每月" ∨ cycle = "每年") (h : Valid d) (n : Nat) :
    key d ≤ key (stepIter cycle n d) := by
  induction n generalizing d with
  | zero => exact le_refl _
  | succ k ih =>
    obtain ⟨hv, hlt⟩ := billingStep_valid_lt hc h
    exact le_trans (le_of_lt hlt) (ih hv)

theorem stepIter_key_mono {cycle : String} {d : CalDate}
    (hc : cycle = "每週" ∨ cycle = "每月" ∨ cycle = "每年") (h : Valid d)
    {j k : Nat} (hjk : j ≤ k) :
    key (stepIter cycle j d) ≤ key (stepIter cycle k d) := by
  obtain ⟨n, rfl⟩ := Nat.exists_eq_add_of_le hjk
  rw [Nat.add_comm, stepIter_add]
  exact key_le_stepIter hc (stepIter_valid hc h j) n

theorem billingLoop_cap {cycle : String} {today : CalDate} :
    ∀ (fuel : Nat) (d : CalDate),
      (∀ j, j < fuel → isBefore (stepIter cycle j d) today = true) →
      billingLoop cycle today fuel d = (stepIter cycle fuel d, 0) := by
  intro fuel
  induction fuel with
  | zero => intro d _; rfl
  | succ f ih =>
    intro d hall
    have h0 : isBefore d today = true := hall 0 (by omega)
    unfold billingLoop
    rw [h0]
    simp only [if_true]
    have := ih (billingStep cycle d) (fun j hj => hall (j + 1) (by omega))
    rw [this]
    rfl

theorem billingLoop_stop {cycle : String} {today : CalDate} :
    ∀ (fuel : Nat) (d : CalDate) (k : Nat), k < fuel →
      (∀ j, j < k → isBefore (stepIter cycle j d) today = true) →
      isBefore (stepIter cycle k d) today = false →
      billingLoop cycle today fuel d = (stepIter cycle k d, fuel - k) := by
  intro fuel
  induction fuel with
  | zero => intro d k hk; omega
  | succ f ih =>
    intro d k hk hall hstop
    match k with
    | 0 =>
      unfold billingLoop
      rw [show stepIter cycle 0 d = d from rfl] at hstop
      rw [hstop]
      rfl
    | j + 1 =>
      have h0 : isBefore d today = true := hall 0 (by omega)
      unfold billingLoop
      rw [h0]
      simp only [if_true]
      have := ih (billingStep cycle d) j (by omega)
        (fun i hi => hall (i + 1) (by omega)) hstop
      rw [this, show f + 1 - (j + 1) = f - j by omega]
      rfl

theorem getNextBillingDate_cap {today start : CalDate} {sub : Subscription}
    (hfb : sub.firstBillDate = some start)
    (hall : ∀ j, j < 1000 → isBefore (stepIter sub.billingCycle j start) today = true) :
    getNextBillingDate today sub = today := by
  have h := @billingLoop_cap sub.billingCycle today 1000 start hall
  unfold getNextBillingDate
  rw [hfb]
  simp [h]

theorem getNextBillingDate_stop {today start : CalDate} {sub : Subscription} {k : Nat}
    (hfb : sub.firstBillDate = some start) (hk : k < 1000)
    (hall : ∀ j, j < k → isBefore (stepIter sub.billingCycle j start) today = true)
    (hstop : isBefore (stepIter sub.billingCycle k start) today = false) :
    getNextBillingDate today sub = stepIter sub.billingCycle k start := by
  have h := @billingLoop_stop sub.billingCycle today 1000 start k hk hall hstop
  unfold getNextBillingDate
  rw [hfb]
  simp [h, Nat.sub_ne_zero_of_lt hk]

theorem addMonths_monthIdx {d : CalDate} (h1 : 1 ≤ d.month) (h2 : d.month ≤ 12) :
    monthIdx (addMonths d) = monthIdx d + 1 := by
  obtain ⟨y, m, dd, e⟩ := d
  simp only at h1 h2
  by_cases hm : m < 12 <;> simp [addMonths, monthIdx, hm] <;> omega

theorem addMonths_month_bounds {d : CalDate} (h1 : 1 ≤ d.month) (h2 : d.month ≤ 12) :
    1 ≤ (addMonths d).month ∧ (addMonths d).month ≤ 12 := by
  obtain ⟨y, m, dd, e⟩ := d
  simp only at h1 h2
  by_cases hm : m < 12 <;> simp [addMonths, hm] <;> omega

theorem nextDay_month_bounds {d : CalDate} (h1 : 1 ≤ d.month) (h2 : d.month ≤ 12) :
    1 ≤ (nextDay d).month ∧ (nextDay d).month ≤ 12 := by
  unfold nextDay
  split
  · dsimp only; omega
  · split
    · rename_i hm; dsimp only; omega
    · dsimp only; omega

theorem addDays_month_bounds {d : CalDate} (h1 : 1 ≤ d.month) (h2 : d.month ≤ 12) (n : Nat) :
    1 ≤ (addDays n d).month ∧ (addDays n d).month ≤ 12 := by
  induction n generalizing d with
  | zero => exact ⟨h1, h2⟩
  | succ k ih =>
    obtain ⟨hb1, hb2⟩ := nextDay_month_bounds h1 h2
    exact ih hb1 hb2

theorem jsMkDate_month_bounds {y m day : Int} {e : Bool} (h1 : 1 ≤ m) (h2 : m ≤ 12) :
    1 ≤ (jsMkDate y m day e).month ∧ (jsMkDate y m day e).month ≤ 12 := by
  unfold jsMkDate
  exact addDays_month_bounds h1 h2 _

theorem jsSetMonth_month_bounds (n : Int) (d : CalDate) :
    1 ≤ (jsSetMonth n d).month ∧ (jsSetMonth n d).month ≤ 12 := by
  unfold jsSetMonth
  have h1 : 0 ≤ Int.emod n 12 := Int.emod_nonneg n (by omega)
  have h2 : Int.emod n 12 < 12 := Int.emod_lt_of_pos n (by omega)
  exact jsMkDate_month_bounds (by omega) (by omega)

theorem monthlyLoop_nil_of_past {start monthEnd cm : CalDate} :
    ∀ (fuel : Nat) (d : CalDate), 1 ≤ d.month → d.month ≤ 12 →
      monthIdx cm < monthIdx d → monthlyLoop start monthEnd cm fuel d = [] := by
  intro fuel
  induction fuel with
  | zero => intro d _ _ _; rfl
  | succ f ih =>
    intro d hm1 hm2 hgt
    obtain ⟨hb1, hb2⟩ := addMonths_month_bounds hm1 hm2
    have hidx : monthIdx cm < monthIdx (addMonths d) := by
      rw [addMonths_monthIdx hm1 hm2]; omega
    unfold monthlyLoop
    split
    · split
      · rename_i hpush
        have hsm : isSameMonth d cm = true := by
          cases hsm : isSameMonth d cm
          · rw [hsm] at hpush; simp at hpush
          · rfl
        obtain ⟨hy, hmm⟩ := isSameMonth_eq_true.mp hsm
        exfalso
        unfold monthIdx at hgt
        rw [hy, hmm] at hgt
        omega
      · exact ih (addMonths d) hb1 hb2 hidx
    · rfl

theorem monthlyLoop_length_le_one {start monthEnd cm : CalDate} :
    ∀ (fuel : Nat) (d : CalDate), 1 ≤ d.month → d.month ≤ 12 →
      (monthlyLoop start monthEnd cm fuel d).length ≤ 1 := by
  intro fuel
  induction fuel with
  | zero => intro d _ _; simp [monthlyLoop]
  | succ f ih =>
    intro d hm1 hm2
    obtain ⟨hb1, hb2⟩ := addMonths_month_bounds hm1 hm2
    unfold monthlyLoop
    split
    · split
      · rename_i hpush
        have hsm : isSameMonth d cm = true := by
          cases hsm : isSameMonth d cm
          · rw [hsm] at hpush; simp at hpush
          · rfl
        obtain ⟨hy, hmm⟩ := isSameMonth_eq_true.mp hsm
        have hidx : monthIdx cm < monthIdx (addMonths d) := by
          rw [addMonths_monthIdx hm1 hm2]
          unfold monthIdx
          rw [hy, hmm]
          omega
        rw [monthlyLoop_nil_of_past f (addMonths d) hb1 hb2 hidx]
        simp
      · exact ih (addMonths d) hb1 hb2
    · simp

theorem nodup_of_length_le_one {α : Type} {l : List α} (h : l.length ≤ 1) : l.Nodup := by
  match l with
  | [] => exact List.nodup_nil
  | [a] => simp
  | a :: b :: t => simp at h

theorem mem_insertK {α : Type} (κ : α → Int) (a x : α) :
    ∀ l : List α, x ∈ insertK κ a l ↔ x = a ∨ x ∈ l := by
  intro l
  induction l with
  | nil => simp [insertK]
  | cons b t ih =>
    unfold insertK
    split
    · simp only [List.mem_cons, ih]
      tauto
    · simp only [List.mem_cons]

theorem sorted_insertK {α : Type} (κ : α → Int) (a : α) :
    ∀ {l : List α}, List.Sorted (fun u v => κ u ≤ κ v) l →
      List.Sorted (fun u v => κ u ≤ κ v) (insertK κ a l) := by
  intro l
  induction l with
  | nil => intro _; simp [insertK]
  | cons b t ih =>
    intro h
    rw [List.sorted_cons] at h
    unfold insertK
    split
    · rename_i hlt
      rw [List.sorted_cons]
      constructor
      · intro x hx
        rcases (mem_insertK κ a x t).mp hx with rfl | hx
        · exact le_of_lt hlt
        · exact h.1 x hx
      · exact ih h.2
    · rename_i hnlt
      rw [List.sorted_cons]
      constructor
      · intro x hx
        rcases List.mem_cons.mp hx with rfl | hx
        · omega
        · have := h.1 x hx
          omega
      · rw [List.sorted_cons]
        exact h

theorem sorted_isortK {α : Type} (κ : α → Int) :
    ∀ l : List α, List.Sorted (fun u v => κ u ≤ κ v) (isortK κ l) := by
  intro l
  induction l with
  | nil => simp [isortK]
  | cons a t ih => exact sorted_insertK κ a ih

theorem mem_isortK {α : Type} (κ : α → Int) (x : α) :
    ∀ l : List α, x ∈ isortK κ l ↔ x ∈ l := by
  intro l
  induction l with
  | nil => simp [isortK]
  | cons a t ih =>
    unfold isortK
    rw [mem_insertK, ih, List.mem_cons]

theorem filter_insertK_eq {α : Type} (κ : α → Int) (c : Int) (a : α) (hc : κ a = c) :
    ∀ l : List α, (insertK κ a l).filter (fun x => κ x == c) =
      a :: l.filter (fun x => κ x == c) := by
  intro l
  induction l with
  | nil => simp [insertK, hc]
  | cons b t ih =>
    unfold insertK
    split
    · rename_i hlt
      have hbc : (κ b == c) = false := by
        simp only [beq_eq_false_iff_ne, ne_eq]
        omega
      simp only [List.filter_cons, hbc, ih]
      simp
    · simp only [List.filter_cons, hc]
      simp

theorem filter_insertK_ne {α : Type} (κ : α → Int) (c : Int) (a : α) (hc : ¬ κ a = c) :
    ∀ l : List α, (insertK κ a l).filter (fun x => κ x == c) =
      l.filter (fun x => κ x == c) := by
  intro l
  induction l with
  | nil => simp [insertK, hc]
  | cons b t ih =>
    unfold insertK
    split
    · simp only [List.filter_cons, ih]
    · simp only [List.filter_cons]
      have hac : (κ a == c) = false := by
        simp only [beq_eq_false_iff_ne, ne_eq]
        exact hc
      rw [hac]
      simp

theorem isortK_filter {α : Type} (κ : α → Int) (c : Int) :
    ∀ l : List α, (isortK κ l).filter (fun x => κ x == c) =
      l.filter (fun x => κ x == c) := by
  intro l
  induction l with
  | nil => rfl
  | cons a t ih =>
    unfold isortK
    by_cases hc : κ a = c
    · rw [filter_insertK_eq κ c a hc, ih, List.filter_cons]
      simp [hc]
    · rw [filter_insertK_ne κ c a hc, ih, List.filter_cons]
      have hac : (κ a == c) = false := by
        simp only [beq_eq_false_iff_ne, ne_eq]
        exact hc
      rw [hac]
      simp

theorem billingStep_other {cycle : String} {d : CalDate}
    (h1 : ¬ cycle = "每月") (h2 : ¬ cycle = "每年") (h3 : ¬ cycle = "每週") :
    billingStep cycle d = d := by
  unfold billingStep
  rw [if_neg h1, if_neg h2, if_neg h3]

theorem stepIter_other {cycle : String}
    (h1 : ¬ cycle = "每月") (h2 : ¬ cycle = "每年") (h3 : ¬ cycle = "每週") :
    ∀ (k : Nat) (d : CalDate), stepIter cycle k d = d := by
  intro k
  induction k with
  | zero => intro d; rfl
  | succ n ih =>
    intro d
    show stepIter cycle n (billingStep cycle d) = d
    rw [billingStep_other h1 h2 h3, ih]

theorem addYears_jan2 (y : Int) (e : Bool) :
    addYears (CalDate.mk y 1 2 e) = CalDate.mk (y + 1) 1 2 e := by
  norm_num [addYears, daysInMonth]

theorem stepIter_yearly_jan2 (k : Nat) (y : Int) :
    stepIter "每年" k (CalDate.mk y 1 2 false) = CalDate.mk (y + k) 1 2 false := by
  induction k generalizing y with
  | zero => norm_num [stepIter]
  | succ n ih =>
    show stepIter "每年" n (billingStep "每年" (CalDate.mk y 1 2 false)) = _
    unfold billingStep
    rw [if_neg (by decide), if_pos rfl, addYears_jan2, ih]
    congr 1
    push_cast
    ring

theorem set_append_singleton {α : Type} (l : List α) (a v : α) :
    (l ++ [a]).set l.length v = l ++ [v] := by
  induction l with
  | nil => rfl
  | cons b t ih =>
    show b :: ((t ++ [a]).set t.length v) = b :: (t ++ [v])
    rw [ih]

theorem getD_append_self {α : Type} (l : List α) (v : α) (t : List α) (d : α) :
    (l ++ v :: t).getD l.length d = v := by
  induction l with
  | nil => simp
  | cons b r ih => simpa using ih

theorem getD_append_left_of_lt {α : Type} (l t : List α) (i : Nat) (d : α)
    (h : i < l.length) : (l ++ t).getD i d = l.getD i d := by
  unfold List.getD
  rw [List.get?_append h]

theorem allocRef_extends {σbase σ : Store} (h : ∃ τ, σ = σbase ++ τ) (v : CalDate) :
    ∃ τ, (allocRef σ v).2 = σbase ++ τ := by
  obtain ⟨τ, rfl⟩ := h
  exact ⟨τ ++ [v], by simp [allocRef]⟩

theorem writeRef_allocRef_extends {σbase σ : Store} (h : ∃ τ, σ = σbase ++ τ)
    (v w : CalDate) :
    ∃ τ, writeRef (allocRef σ v).2 (allocRef σ v).1 w = σbase ++ τ := by
  obtain ⟨τ, rfl⟩ := h
  refine ⟨τ ++ [w], ?_⟩
  unfold allocRef writeRef
  simp only
  rw [set_append_singleton]
  simp

theorem getBillDatesInMonthST_extends (sub : Subscription) (anchor : Nat) (σ : Store) :
    ∃ τ, (getBillDatesInMonthST sub anchor σ).2 = σ ++ τ := by
  unfold getBillDatesInMonthST
  cases hA : sub.active
  · exact ⟨[], by simp⟩
  · cases hfb : sub.firstBillDate with
    | none => exact ⟨[], by simp⟩
    | some sv =>
      simp only [Bool.not_true]
      rw [if_neg (by simp)]
      split
      · split
        · exact writeRef_allocRef_extends
            (writeRef_allocRef_extends
              (allocRef_extends (allocRef_extends ⟨[], by simp⟩ sv) _) _ _) _ _
        · exact writeRef_allocRef_extends
            (allocRef_extends (allocRef_extends ⟨[], by simp⟩ sv) _) _ _
      · split
        · exact allocRef_extends (allocRef_extends ⟨[], by simp⟩ sv) _
        · split
          · exact allocRef_extends (allocRef_extends ⟨[], by simp⟩ sv) _
          · exact allocRef_extends (allocRef_extends ⟨[], by simp⟩ sv) _

/-- Cross-check of the two embeddings of getBillDatesInMonth: the heap
model and the value-level function agree on inputs exercising every branch
(monthly with and without the setFullYear fast-forward, yearly, weekly,
inactive, unknown cycle). -/
theorem getBillDatesInMonthST_agrees_on_samples :
    (getBillDatesInMonthST sampleMonthly31 0 [CalDate.mk 2024 3 15 false]).1 =
      getBillDatesInMonth sampleMonthly31 (CalDate.mk 2024 3 15 false) ∧
    (getBillDatesInMonthST sampleMonthly31 0 [CalDate.mk 2025 7 1 false]).1 =
      getBillDatesInMonth sampleMonthly31 (CalDate.mk 2025 7 1 false) ∧
    (getBillDatesInMonthST sampleWeekly 0 [CalDate.mk 2025 3 1 false]).1 =
      getBillDatesInMonth sampleWeekly (CalDate.mk 2025 3 1 false) ∧
    (getBillDatesInMonthST sampleYearlyFar 1 [CalDate.mk 2024 3 15 false, CalDate.mk 2026 1 10 false]).1 =
      getBillDatesInMonth sampleYearlyFar (CalDate.mk 2026 1 10 false) ∧
    (getBillDatesInMonthST sampleInactive 0 [CalDate.mk 2024 3 15 false]).1 =
      getBillDatesInMonth sampleInactive (CalDate.mk 2024 3 15 false) ∧
    (getBillDatesInMonthST sampleUnknownCycle 0 [CalDate.mk 2024 3 15 false]).1 =
      getBillDatesInMonth sampleUnknownCycle (CalDate.mk 2024 3 15 false) := by
  set_option maxRecDepth 8000 in
  refine ⟨by decide, by decide, by decide, by decide, by decide, by decide⟩

/-- C1 (amended): for every subscription with a non-empty firstBillDate, a
billingCycle in the enumeration, a well-formed start date, and on which
some whole-cycle step within the 1000-iteration cap reaches a date not
strictly before the reference day, getNextBillingDate returns a date
reachable from firstBillDate by whole-cycle steps, not strictly before the
reference day, and at or before every reachable date that is not strictly
before the reference day (i.e. the earliest such date). -/
theorem C1_next_billing_earliest_amended (today start : CalDate) (sub : Subscription)
    (hcyc : sub.billingCycle = "每週" ∨ sub.billingCycle = "每月" ∨
      sub.billingCycle = "每年")
    (hfb : sub.firstBillDate = some start)
    (hval : Valid start)
    (hreach : ∃ k, k < 1000 ∧ isBefore (stepIter sub.billingCycle k start) today = false) :
    (∃ k, getNextBillingDate today sub = stepIter sub.billingCycle k start) ∧
    isBefore (getNextBillingDate today sub) today = false ∧
    (∀ j, isBefore (stepIter sub.billingCycle j start) today = false →
      isBefore (stepIter sub.billingCycle j start) (getNextBillingDate today sub) = false) := by
  classical
  obtain ⟨kw, hkw, hkwstop⟩ := hreach
  have hex : ∃ k, isBefore (stepIter sub.billingCycle k start) today = false := ⟨kw, hkwstop⟩
  have hk0 : isBefore (stepIter sub.billingCycle (Nat.find hex) start) today = false :=
    Nat.find_spec hex
  have hmin : ∀ j, j < Nat.find hex →
      ¬ isBefore (stepIter sub.billingCycle j start) today = false :=
    fun j hj => Nat.find_min hex hj
  have hall : ∀ j, j < Nat.find hex →
      isBefore (stepIter sub.billingCycle j start) today = true := by
    intro j hj
    cases h : isBefore (stepIter sub.billingCycle j start) today
    · exact absurd h (hmin j hj)
    · rfl
  have hk0lt : Nat.find hex < 1000 := by
    have := Nat.find_min' hex hkwstop
    omega
  have heq := getNextBillingDate_stop hfb hk0lt hall hk0
  refine ⟨⟨Nat.find hex, heq⟩, ?_, ?_⟩
  · rw [heq]
    exact hk0
  · intro j hj
    rw [heq]
    have hjk : Nat.find hex ≤ j := by
      by_contra hlt
      push_neg at hlt
      exact (hmin j hlt) hj
    have hmono := stepIter_key_mono hcyc hval hjk
    rw [isBefore_eq_false]
    omega

/-- C1 witness: the amended theorem applied to the monthly 2024-01-31
subscription with reference day 2024-03-01 (two steps suffice). -/
theorem C1_witness :
    ((sampleMonthly31.billingCycle = "每週" ∨ sampleMonthly31.billingCycle = "每月" ∨
        sampleMonthly31.billingCycle = "每年") ∧
      sampleMonthly31.firstBillDate = some (CalDate.mk 2024 1 31 false) ∧
      Valid (CalDate.mk 2024 1 31 false) ∧
      (∃ k, k < 1000 ∧ isBefore (stepIter sampleMonthly31.billingCycle k (CalDate.mk 2024 1 31 false))
        (CalDate.mk 2024 3 1 false) = false)) ∧
    ((∃ k, getNextBillingDate (CalDate.mk 2024 3 1 false) sampleMonthly31 =
        stepIter sampleMonthly31.billingCycle k (CalDate.mk 2024 1 31 false)) ∧
      isBefore (getNextBillingDate (CalDate.mk 2024 3 1 false) sampleMonthly31)
        (CalDate.mk 2024 3 1 false) = false ∧
      (∀ j, isBefore (stepIter sampleMonthly31.billingCycle j (CalDate.mk 2024 1 31 false))
          (CalDate.mk 2024 3 1 false) = false →
        isBefore (stepIter sampleMonthly31.billingCycle j (CalDate.mk 2024 1 31 false))
          (getNextBillingDate (CalDate.mk 2024 3 1 false) sampleMonthly31) = false)) :=
  ⟨⟨Or.inr (Or.inl rfl), rfl, by decide, ⟨2, by decide, by decide⟩⟩,
    C1_next_billing_earliest_amended (CalDate.mk 2024 3 1 false) (CalDate.mk 2024 1 31 false)
      sampleMonthly31 (Or.inr (Or.inl rfl)) rfl (by decide) ⟨2, by decide, by decide⟩⟩

/-- C1 counterexample: for a yearly subscription started 0900-01-02 and
reference day 2026-10-11 the iteration cap is reached and the function
returns the reference day, which is not reachable from the start date by
whole-cycle steps at all, so it is not the earliest reachable date that is
not strictly before the reference day. -/
theorem C1_counterexample :
    getNextBillingDate (CalDate.mk 2026 10 11 false) sampleYearlyFar =
      CalDate.mk 2026 10 11 false ∧
    ∀ k, stepIter "每年" k (CalDate.mk 900 1 2 false) ≠ CalDate.mk 2026 10 11 false := by
  constructor
  · apply getNextBillingDate_cap rfl
    intro j hj
    show isBefore (stepIter "每年" j (CalDate.mk 900 1 2 false))
      (CalDate.mk 2026 10 11 false) = true
    rw [stepIter_yearly_jan2, isBefore_eq_true]
    simp only [key]
    simp
    omega
  · intro k
    rw [stepIter_yearly_jan2]
    intro h
    rw [CalDate.mk.injEq] at h
    omega

/-- C2 (amended): for a MONTHLY subscription with firstBillDate =
2024-01-31 the advancement sequence has its February occurrence on
2024-02-29 (leap-year month-end clamp) and its March occurrence on
2024-03-29 — the clamped day persists and the original day-of-month 31 is
not restored — with no duplicated and no skipped month; getBillDatesInMonth
agrees for February (2024-02-29) but returns 2024-03-02 for a March query
(setMonth overflow). -/
theorem C2_monthly_clamping_amended :
    getNextBillingDate (CalDate.mk 2024 2 1 false) sampleMonthly31 = CalDate.mk 2024 2 29 false ∧
    getNextBillingDate (CalDate.mk 2024 3 1 false) sampleMonthly31 = CalDate.mk 2024 3 29 false ∧
    stepIter "每月" 1 (CalDate.mk 2024 1 31 false) = CalDate.mk 2024 2 29 false ∧
    stepIter "每月" 2 (CalDate.mk 2024 1 31 false) = CalDate.mk 2024 3 29 false ∧
    stepIter "每月" 3 (CalDate.mk 2024 1 31 false) = CalDate.mk 2024 4 29 false ∧
    getBillDatesInMonth sampleMonthly31 (CalDate.mk 2024 2 10 false) =
      [CalDate.mk 2024 2 29 false] ∧
    getBillDatesInMonth sampleMonthly31 (CalDate.mk 2024 3 15 false) =
      [CalDate.mk 2024 3 2 false] := by
  set_option maxRecDepth 4000 in decide

/-- C2 counterexample: neither the advancement walk nor the month
enumeration produces 2024-03-31 for March 2024 as the claim requires. -/
theorem C2_counterexample :
    getNextBillingDate (CalDate.mk 2024 3 1 false) sampleMonthly31 ≠ CalDate.mk 2024 3 31 false ∧
    getBillDatesInMonth sampleMonthly31 (CalDate.mk 2024 3 15 false) ≠
      [CalDate.mk 2024 3 31 false] ∧
    CalDate.mk 2024 3 31 false ∉ getBillDatesInMonth sampleMonthly31 (CalDate.mk 2024 3 15 false) := by
  set_option maxRecDepth 4000 in decide

/-- C3 (code behavior at the failing input): for the weekly subscription
started Monday 2023-01-02 queried at 2025-03-01, getBillDatesInMonth
returns the four Tuesdays 2025-03-04/11/18/25 instead of the five Mondays
2025-03-03/10/17/24/31, and the first returned date is not a whole number
of weeks from the start date (the year fast-forward broke the weekday). -/
theorem C3_weekly_code_behavior :
    getBillDatesInMonth sampleWeekly (CalDate.mk 2025 3 1 false) =
      [CalDate.mk 2025 3 4 false, CalDate.mk 2025 3 11 false,
        CalDate.mk 2025 3 18 false, CalDate.mk 2025 3 25 false] ∧
    getBillDatesInMonth sampleWeekly (CalDate.mk 2025 3 1 false) ≠
      [CalDate.mk 2025 3 3 false, CalDate.mk 2025 3 10 false, CalDate.mk 2025 3 17 false,
        CalDate.mk 2025 3 24 false, CalDate.mk 2025 3 31 false] ∧
    Int.emod (rataDie (CalDate.mk 2025 3 4 false) - rataDie (CalDate.mk 2023 1 2 false)) 7 ≠ 0 := by
  refine ⟨by decide, by decide, by decide⟩

/-- C4: for every subscription list and reference day, upcomingSubs (the
7-day window) contains only active subscriptions with 0 ≤ daysLeft ≤ 7, is
sorted non-decreasing by daysLeft, and is stable: for every key value the
entries with that daysLeft appear exactly as in the unsorted pipeline
output, which lists them in original collection order. -/
theorem C4_upcoming_window_sorted_stable (today : CalDate) (subs : List Subscription) :
    (∀ x ∈ upcomingSubs today subs, x.sub.active = true ∧ 0 ≤ x.daysLeft ∧ x.daysLeft ≤ 7) ∧
    List.Sorted (fun a b : WithDays => a.daysLeft ≤ b.daysLeft) (upcomingSubs today subs) ∧
    (∀ c : Int, (upcomingSubs today subs).filter (fun x => x.daysLeft == c) =
      (upcomingPre today subs).filter (fun x => x.daysLeft == c)) := by
  refine ⟨?_, ?_, ?_⟩
  · intro x hx
    rw [upcomingSubs, mem_isortK] at hx
    unfold upcomingPre at hx
    rw [List.mem_filter] at hx
    obtain ⟨hmem, hrange⟩ := hx
    rw [List.mem_map] at hmem
    obtain ⟨s, hs, rfl⟩ := hmem
    rw [List.mem_filter] at hs
    refine ⟨hs.2, ?_⟩
    simpa using hrange
  · exact sorted_isortK _ _
  · intro c
    exact isortK_filter _ c _

/-- C4 witness: the theorem applied to a concrete collection and
reference day. -/
theorem C4_witness :
    (∀ x ∈ upcomingSubs (CalDate.mk 2026 1 5 false) [sampleDueToday, sampleMonthly31],
      x.sub.active = true ∧ 0 ≤ x.daysLeft ∧ x.daysLeft ≤ 7) ∧
    List.Sorted (fun a b : WithDays => a.daysLeft ≤ b.daysLeft)
      (upcomingSubs (CalDate.mk 2026 1 5 false) [sampleDueToday, sampleMonthly31]) ∧
    (∀ c : Int, (upcomingSubs (CalDate.mk 2026 1 5 false)
        [sampleDueToday, sampleMonthly31]).filter (fun x => x.daysLeft == c) =
      (upcomingPre (CalDate.mk 2026 1 5 false)
        [sampleDueToday, sampleMonthly31]).filter (fun x => x.daysLeft == c)) :=
  C4_upcoming_window_sorted_stable (CalDate.mk 2026 1 5 false) [sampleDueToday, sampleMonthly31]

/-- C5: for every active MONTHLY subscription with a non-empty
firstBillDate (whose month counter is well formed) and every query month,
getBillDatesInMonth returns at most one date and never duplicates. -/
theorem C5_monthly_at_most_one (sub : Subscription) (cm start : CalDate)
    (hcyc : sub.billingCycle = "每月") (hfb : sub.firstBillDate = some start)
    (hact : sub.active = true)
    (hm1 : 1 ≤ start.month) (hm2 : start.month ≤ 12) :
    (getBillDatesInMonth sub cm).length ≤ 1 ∧ (getBillDatesInMonth sub cm).Nodup := by
  have hgen : ∀ d2 : CalDate, 1 ≤ d2.month → d2.month ≤ 12 →
      (monthlyLoop start (endOfMonth cm) cm 24 (if isBefore d2 start then start else d2)).length ≤ 1 := by
    intro d2 hb1 hb2
    split
    · exact monthlyLoop_length_le_one 24 start hm1 hm2
    · exact monthlyLoop_length_le_one 24 d2 hb1 hb2
  have hmain : (getBillDatesInMonth sub cm).length ≤ 1 := by
    unfold getBillDatesInMonth
    rw [hfb]
    simp only [hact, hcyc, Bool.not_true]
    rw [if_neg (by simp), if_pos trivial]
    exact hgen _ (jsSetMonth_month_bounds _ _).1 (jsSetMonth_month_bounds _ _).2
  exact ⟨hmain, nodup_of_length_le_one hmain⟩

/-- C5 witness: the theorem applied to the monthly 2024-01-31 subscription
queried in March 2024. -/
theorem C5_witness :
    (sampleMonthly31.billingCycle = "每月" ∧
      sampleMonthly31.firstBillDate = some (CalDate.mk 2024 1 31 false) ∧
      sampleMonthly31.active = true) ∧
    (getBillDatesInMonth sampleMonthly31 (CalDate.mk 2024 3 15 false)).length ≤ 1 ∧
    (getBillDatesInMonth sampleMonthly31 (CalDate.mk 2024 3 15 false)).Nodup :=
  ⟨⟨rfl, rfl, rfl⟩,
    C5_monthly_at_most_one sampleMonthly31 (CalDate.mk 2024 3 15 false)
      (CalDate.mk 2024 1 31 false) rfl rfl rfl (by decide) (by decide)⟩

/-- C6: a missing firstBillDate makes getNextBillingDate return the
reference day and getBillDatesInMonth return the empty list, and an
inactive subscription makes getBillDatesInMonth return the empty list. -/
theorem C6_missing_date_and_inactive (today cm : CalDate) (sub : Subscription) :
    (sub.firstBillDate = none → getNextBillingDate today sub = today) ∧
    (sub.firstBillDate = none → getBillDatesInMonth sub cm = []) ∧
    (sub.active = false → getBillDatesInMonth sub cm = []) := by
  refine ⟨?_, ?_, ?_⟩
  · intro h
    unfold getNextBillingDate
    rw [h]
  · intro h
    unfold getBillDatesInMonth
    rw [h]
    cases hA : sub.active <;> simp
  · intro h
    unfold getBillDatesInMonth
    rw [h]
    simp

/-- C6 witness: the theorem applied to a subscription with no
firstBillDate and to an inactive subscription. -/
theorem C6_witness :
    (sampleNoDate.firstBillDate = none ∧
      getNextBillingDate (CalDate.mk 2026 1 5 false) sampleNoDate = CalDate.mk 2026 1 5 false ∧
      getBillDatesInMonth sampleNoDate (CalDate.mk 2026 1 5 false) = []) ∧
    (sampleInactive.active = false ∧
      getBillDatesInMonth sampleInactive (CalDate.mk 2026 1 5 false) = []) :=
  ⟨⟨rfl,
    (C6_missing_date_and_inactive (CalDate.mk 2026 1 5 false) (CalDate.mk 2026 1 5 false)
      sampleNoDate).1 rfl,
    (C6_missing_date_and_inactive (CalDate.mk 2026 1 5 false) (CalDate.mk 2026 1 5 false)
      sampleNoDate).2.1 rfl⟩,
   ⟨rfl,
    (C6_missing_date_and_inactive (CalDate.mk 2026 1 5 false) (CalDate.mk 2026 1 5 false)
      sampleInactive).2.2 rfl⟩⟩

/-- C7: advancement in getNextBillingDate is capped at 1000 iterations; if
every candidate within the cap is strictly before the reference day the
function returns the reference day, and if fewer than 1000 steps reach a
candidate not strictly before the reference day it returns that advanced
candidate. -/
theorem C7_iteration_cap (today start : CalDate) (sub : Subscription)
    (hfb : sub.firstBillDate = some start) :
    ((∀ j, j < 1000 → isBefore (stepIter sub.billingCycle j start) today = true) →
      getNextBillingDate today sub = today) ∧
    (∀ k, k < 1000 →
      (∀ j, j < k → isBefore (stepIter sub.billingCycle j start) today = true) →
      isBefore (stepIter sub.billingCycle k start) today = false →
      getNextBillingDate today sub = stepIter sub.billingCycle k start) :=
  ⟨fun hall => getNextBillingDate_cap hfb hall,
   fun _ hk hall hstop => getNextBillingDate_stop hfb hk hall hstop⟩

/-- C7 witness: the theorem applied to the far-past yearly subscription. -/
theorem C7_witness :
    sampleYearlyFar.firstBillDate = some (CalDate.mk 900 1 2 false) ∧
    (((∀ j, j < 1000 → isBefore (stepIter sampleYearlyFar.billingCycle j (CalDate.mk 900 1 2 false))
        (CalDate.mk 2026 10 11 false) = true) →
      getNextBillingDate (CalDate.mk 2026 10 11 false) sampleYearlyFar =
        CalDate.mk 2026 10 11 false) ∧
    (∀ k, k < 1000 →
      (∀ j, j < k → isBefore (stepIter sampleYearlyFar.billingCycle j (CalDate.mk 900 1 2 false))
        (CalDate.mk 2026 10 11 false) = true) →
      isBefore (stepIter sampleYearlyFar.billingCycle k (CalDate.mk 900 1 2 false))
        (CalDate.mk 2026 10 11 false) = false →
      getNextBillingDate (CalDate.mk 2026 10 11 false) sampleYearlyFar =
        stepIter sampleYearlyFar.billingCycle k (CalDate.mk 900 1 2 false))) :=
  ⟨rfl, C7_iteration_cap (CalDate.mk 2026 10 11 false) (CalDate.mk 900 1 2 false)
    sampleYearlyFar rfl⟩

/-- C8: a subscription whose next occurrence is exactly the reference day
has daysLeft = 0 and is included in the 7-day window, and the reminder
message renders the due-today phrase for daysLeft = 0 (with the in-N-days
phrase for positive and the overdue phrase for negative daysLeft). -/
theorem C8_due_today_boundary (today : CalDate) (subs : List Subscription) (sub : Subscription)
    (hmem : sub ∈ subs) (hact : sub.active = true)
    (hnext : getNextBillingDate today sub = today) :
    getDaysRemaining today (getNextBillingDate today sub) = 0 ∧
    WithDays.mk sub 0 ∈ upcomingSubs today subs ∧
    dueTextOf 0 = "今天" ∧
    (∀ n : Int, 0 < n → dueTextOf n = toString n ++ " 天後") ∧
    (∀ n : Int, n < 0 → dueTextOf n = "已過期") ∧
    (∀ (t2 : CalDate) (s2 : Subscription) (dl : Int),
      generateReminderMessage t2 s2 dl =
        "【SubSmart 續訂提醒】\n您的訂閱服務「" ++ s2.name ++ "」即將在 " ++ dueTextOf dl ++
          " (" ++ localeDateString (getNextBillingDate t2 s2) ++ ") 扣款。\n金額：" ++
          s2.currency ++ " " ++ toString s2.price ++ "\n請確認是否需要續訂或取消。") := by
  have hdl : getDaysRemaining today (getNextBillingDate today sub) = 0 := by
    rw [hnext]
    unfold getDaysRemaining
    omega
  refine ⟨hdl, ?_, rfl, ?_, ?_, ?_⟩
  · rw [upcomingSubs, mem_isortK]
    unfold upcomingPre
    rw [List.mem_filter]
    constructor
    · rw [List.mem_map]
      refine ⟨sub, ?_, ?_⟩
      · rw [List.mem_filter]
        exact ⟨hmem, hact⟩
      · rw [hdl]
    · simp
  · intro n hn
    unfold dueTextOf
    rw [if_neg (by omega), if_neg (by omega)]
  · intro n hn
    unfold dueTextOf
    rw [if_neg (by omega), if_pos hn]
  · intro t2 s2 dl
    rfl

/-- C8 witness: the theorem applied to a subscription first billed exactly
on the reference day 2026-01-05. -/
theorem C8_witness :
    (sampleDueToday ∈ [sampleDueToday, sampleMonthly31] ∧ sampleDueToday.active = true ∧
      getNextBillingDate (CalDate.mk 2026 1 5 false) sampleDueToday =
        CalDate.mk 2026 1 5 false) ∧
    (getDaysRemaining (CalDate.mk 2026 1 5 false)
        (getNextBillingDate (CalDate.mk 2026 1 5 false) sampleDueToday) = 0 ∧
      WithDays.mk sampleDueToday 0 ∈
        upcomingSubs (CalDate.mk 2026 1 5 false) [sampleDueToday, sampleMonthly31] ∧
      dueTextOf 0 = "今天" ∧
      (∀ n : Int, 0 < n → dueTextOf n = toString n ++ " 天後") ∧
      (∀ n : Int, n < 0 → dueTextOf n = "已過期") ∧
      (∀ (t2 : CalDate) (s2 : Subscription) (dl : Int),
        generateReminderMessage t2 s2 dl =
          "【SubSmart 續訂提醒】\n您的訂閱服務「" ++ s2.name ++ "」即將在 " ++ dueTextOf dl ++
            " (" ++ localeDateString (getNextBillingDate t2 s2) ++ ") 扣款。\n金額：" ++
            s2.currency ++ " " ++ toString s2.price ++ "\n請確認是否需要續訂或取消。")) :=
  ⟨⟨by decide, rfl, by decide⟩,
    C8_due_today_boundary (CalDate.mk 2026 1 5 false) [sampleDueToday, sampleMonthly31]
      sampleDueToday (by decide) rfl (by decide)⟩

/-- C9: getBillDatesInMonth never mutates its inputs: in the heap model the
final store is the initial store extended with freshly allocated objects,
so every pre-existing object — in particular the anchor date — holds its
original value after the call; the subscription record is only ever read. -/
theorem C9_no_mutation (sub : Subscription) (anchor : Nat) (σ : Store) :
    (∃ τ, (getBillDatesInMonthST sub anchor σ).2 = σ ++ τ) ∧
    (∀ i d0, i < σ.length →
      ((getBillDatesInMonthST sub anchor σ).2).getD i d0 = σ.getD i d0) := by
  obtain ⟨τ, hτ⟩ := getBillDatesInMonthST_extends sub anchor σ
  refine ⟨⟨τ, hτ⟩, ?_⟩
  intro i d0 hi
  rw [hτ, getD_append_left_of_lt _ _ _ _ hi]

/-- C9 witness: the theorem applied to a concrete store whose cell 0 is the
anchor month. -/
theorem C9_witness :
    (∃ τ, (getBillDatesInMonthST sampleMonthly31 0 [CalDate.mk 2024 3 15 false]).2 =
      [CalDate.mk 2024 3 15 false] ++ τ) ∧
    (∀ i d0, i < ([CalDate.mk 2024 3 15 false] : Store).length →
      ((getBillDatesInMonthST sampleMonthly31 0 [CalDate.mk 2024 3 15 false]).2).getD i d0 =
        ([CalDate.mk 2024 3 15 false] : Store).getD i d0) :=
  C9_no_mutation sampleMonthly31 0 [CalDate.mk 2024 3 15 false]

/-- C10: for a billingCycle outside the enumeration, getBillDatesInMonth
returns the empty list (no branch matches) and getNextBillingDate with a
past firstBillDate exhausts the 1000 iterations without advancing and
returns the reference day. -/
theorem C10_unknown_cycle (today cm : CalDate) (sub : Subscription) (start : CalDate)
    (h1 : ¬ sub.billingCycle = "每週") (h2 : ¬ sub.billingCycle = "每月")
    (h3 : ¬ sub.billingCycle = "每年")
    (hfb : sub.firstBillDate = some start)
    (hpast : isBefore start today = true) :
    getBillDatesInMonth sub cm = [] ∧ getNextBillingDate today sub = today := by
  constructor
  · unfold getBillDatesInMonth
    rw [hfb]
    cases hA : sub.active <;> simp [h1, h2, h3]
  · apply getNextBillingDate_cap hfb
    intro j hj
    rw [stepIter_other h2 h3 h1]
    exact hpast

/-- C10 witness: the theorem applied to a BIWEEKLY subscription with a past
start date. -/
theorem C10_witness :
    (¬ sampleUnknownCycle.billingCycle = "每週" ∧
      ¬ sampleUnknownCycle.billingCycle = "每月" ∧
      ¬ sampleUnknownCycle.billingCycle = "每年" ∧
      sampleUnknownCycle.firstBillDate = some (CalDate.mk 2020 1 1 false) ∧
      isBefore (CalDate.mk 2020 1 1 false) (CalDate.mk 2026 1 1 false) = true) ∧
    (getBillDatesInMonth sampleUnknownCycle (CalDate.mk 2025 3 1 false) = [] ∧
      getNextBillingDate (CalDate.mk 2026 1 1 false) sampleUnknownCycle =
        CalDate.mk 2026 1 1 false) :=
  ⟨⟨by decide, by decide, by decide, rfl, by decide⟩,
    C10_unknown_cycle (CalDate.mk 2026 1 1 false) (CalDate.mk 2025 3 1 false)
      sampleUnknownCycle (CalDate.mk 2020 1 1 false) (by decide) (by decide) (by decide)
      rfl (by decide)⟩

end SubSmart
